import Mathlib

/-!
Shallow embedding of the `klauspost/oui` Go library (hardwareaddr.go, oui.go
and the unnamed source parts, which contain a second revision of oui.go with
the same parser and store logic).

Modelling conventions:
* Go strings are modelled as `List Char`.  Every branch the sources take on
  string contents compares single ASCII characters (tabs, `#`, separators,
  hex digits), so byte indexing and character indexing agree on all inputs
  considered here.
* Go's `map[[3]byte]Entry` is modelled as `HardwareAddr → Option Entry`;
  map assignment is functional update.
* Fallible Go functions returning `(T, error)` are modelled with `Except`
  or `Option`.
* Byte values are `Nat`s; the parser only ever produces values below 256
  (two hex digits), which is carried as a hypothesis where bit arithmetic
  needs it.
-/

namespace Oui

/-- Convert a Lean string literal to the `List Char` representation used by
the model.  Only applied to ASCII literals. -/
def str (s : String) : List Char := s.data

/-- `unicode.IsSpace` restricted to code points below U+0100, as used by
`strings.TrimSpace`. -/
def isGoSpace (c : Char) : Bool :=
  c == ' ' || c == '\t' || c == '\n' || c == Char.ofNat 11 || c == Char.ofNat 12
    || c == '\r' || c == Char.ofNat 0x85 || c == Char.ofNat 0xA0

/-- Whitespace silently skipped by Go's `fmt` scanner in `Sscanf` mode
(`ss.skipSpace` with `nlIsSpace = false`): the space characters except the
newline, which `Sscanf` treats as an error.  On the 2-character fields
`ParseMac` passes to the scanner, stopping at `'\n'` (which is no hex
digit) yields the same accept/reject outcome as Go's newline error. -/
def isScanSpace (c : Char) : Bool :=
  c == ' ' || c == '\t' || c == Char.ofNat 11 || c == Char.ofNat 12
    || c == '\r' || c == Char.ofNat 0x85 || c == Char.ofNat 0xA0

/-- Hexadecimal digits accepted by `fmt`'s `%x` verb, with their values. -/
def hexVal (c : Char) : Option Nat :=
  if '0' ≤ c ∧ c ≤ '9' then some (c.toNat - '0'.toNat)
  else if 'a' ≤ c ∧ c ≤ 'f' then some (c.toNat - 'a'.toNat + 10)
  else if 'A' ≤ c ∧ c ≤ 'F' then some (c.toNat - 'A'.toNat + 10)
  else none

/-- The regexp character class `[0-9a-zA-Z]` from `scanOUI`'s pattern. -/
def isAlnum (c : Char) : Bool :=
  ('0' ≤ c && c ≤ '9') || ('a' ≤ c && c ≤ 'z') || ('A' ≤ c && c ≤ 'Z')

/-- The regexp character class `[-:]` from `scanOUI`'s pattern. -/
def isSep (c : Char) : Bool := c = '-' || c = ':'

/-- `type HardwareAddr [3]byte` (hardwareaddr.go). -/
structure HardwareAddr where
  b0 : Nat
  b1 : Nat
  b2 : Nat
deriving DecidableEq, Inhabited

/-- `func (h HardwareAddr) Local() bool { return (h[0] & 2) > 0 }`. -/
def HardwareAddr.Local (h : HardwareAddr) : Bool :=
  decide (0 < h.b0 &&& 2)

/-- `func (h HardwareAddr) Multicast() bool { return (h[0] & 1) > 0 }`. -/
def HardwareAddr.Multicast (h : HardwareAddr) : Bool :=
  decide (0 < h.b0 &&& 1)

/-- The reasons `ParseMac` rejects its input, as data.  In Go these are the
format strings of `ErrInvalidMac.Reason`; each carries the 1-based element
index and offending field exactly as the Go messages do. -/
inductive MacErrReason where
  | tooShort : MacErrReason
  | tooFewElements : MacErrReason
  | elemNotTwoChars : Nat → List Char → MacErrReason
  | elemNotHex : Nat → List Char → MacErrReason
deriving DecidableEq

/-- `type ErrInvalidMac struct { Reason string; Mac string }`. -/
structure ErrInvalidMac where
  reason : MacErrReason
  mac : List Char
deriving DecidableEq

/-- `strings.Split(s, sep)` for a one-character separator. -/
def splitOn (sep : Char) : List Char → List (List Char)
  | [] => [[]]
  | c :: rest =>
    let r := splitOn sep rest
    if c = sep then [] :: r
    else (c :: r.headI) :: r.tail

/-- The no-separator branch of `ParseMac`:
`for i := 0; i < len(mac)-1; i += 2 { s = append(s, mac[i:i+2]) }`. -/
def chunk2 : List Char → List (List Char)
  | a :: b :: rest => [a, b] :: chunk2 rest
  | _ => []

/-- `fmt.Sscanf(p, "%x", &b)` for a byte target: skip scanner whitespace,
then read the maximal run of hex digits; no digit at all is an error
(`n != 1` in the Go code), otherwise the value of that run is stored and
any trailing non-digit characters are ignored.  (`ParseMac` only calls
this on 2-character fields, so the value always fits in a byte.) -/
def sscanfHexByte (p : List Char) : Option Nat :=
  let q := p.dropWhile isScanSpace
  let ds := q.takeWhile (fun c => (hexVal c).isSome)
  if ds.isEmpty then none
  else some (ds.foldl (fun acc c => 16 * acc + (hexVal c).getD 0) 0)

/-- The field list `s` that `ParseMac` builds: split on the separator found
at byte 2 if it is `:` or `-`, else consecutive 2-character chunks. -/
def fieldsOf (mac : List Char) : List (List Char) :=
  let c2 := mac.getD 2 ' '
  if c2 = ':' ∨ c2 = '-' then splitOn c2 mac else chunk2 mac

/-- One iteration of `ParseMac`'s field loop body for field `p` at index
`i` (0-based): length check, then the `Sscanf` hex parse. -/
def parseField (mac p : List Char) (i : Nat) : Except ErrInvalidMac Nat :=
  if p.length ≠ 2 then .error ⟨.elemNotTwoChars (i + 1) p, mac⟩
  else
    match sscanfHexByte p with
    | none => .error ⟨.elemNotHex (i + 1) p, mac⟩
    | some b => .ok b

/-- `func ParseMac(mac string) (*HardwareAddr, error)` (hardwareaddr.go). -/
def ParseMac (mac : List Char) : Except ErrInvalidMac HardwareAddr :=
  if mac.length < 6 then .error ⟨.tooShort, mac⟩
  else if (fieldsOf mac).length < 3 then .error ⟨.tooFewElements, mac⟩
  else do
    let b0 ← parseField mac ((fieldsOf mac).getD 0 []) 0
    let b1 ← parseField mac ((fieldsOf mac).getD 1 []) 1
    let b2 ← parseField mac ((fieldsOf mac).getD 2 []) 2
    pure ⟨b0, b1, b2⟩

/-- `type Entry struct` (the unnamed entry source file).  The Go field
`Prefix` is called `pfx` here because of Lean naming constraints. -/
structure Entry where
  manufacturer : List Char := []
  address : List (List Char) := []
  pfx : HardwareAddr := ⟨0, 0, 0⟩
  country : List Char := []
  localAdmin : Bool := false
  multicast : Bool := false
deriving DecidableEq, Inhabited

/-- `const local = 0x020000` (renamed: `local` is a Lean keyword). -/
def localMask : Nat := 0x020000

/-- `const multicast = 0x010000`. -/
def multicastMask : Nat := 0x010000

/-- `strings.Trim(text, "\t \r\n")` applied to address lines. -/
def trimAddr (l : List Char) : List Char :=
  let cut : Char → Bool := fun c => ['\t', ' ', '\r', '\n'].contains c
  ((l.dropWhile cut).reverse.dropWhile cut).reverse

/-- `strings.TrimSpace` (ASCII whitespace plus U+0085/U+00A0, which is all
`unicode.IsSpace` accepts below U+0100). -/
def trimSpace (l : List Char) : List Char :=
  ((l.dropWhile isGoSpace).reverse.dropWhile isGoSpace).reverse

/-- Finalization of a record in `scanOUI`: the `Entry` literal, the country
assignment from the last address line, and the `local`/`multicast` flag
derivation via `i := int(bt[0])<<16 | int(bt[1])<<8 | int(bt[2])`. -/
def mkEntry (bt : HardwareAddr) (manu : List Char) (addr : List (List Char)) : Entry :=
  let i := bt.b0 <<< 16 ||| bt.b1 <<< 8 ||| bt.b2
  { manufacturer := manu
    address := addr
    pfx := bt
    country := if addr.length > 0 then addr.getLastD [] else []
    localAdmin := decide (i &&& localMask ≠ 0)
    multicast := decide (i &&& multicastMask ≠ 0) }

/-!
The regexp `((?:(?:[0-9a-zA-Z]{2})[-:]){2,5}(?:[0-9a-zA-Z]{2}))(?:/(\w{1,2}))?`
used by `scanOUI` via `FindAllStringSubmatch(arr[0], -1)`, of which only the
first match's capture group 1 (the address token) is used.  Go's regexp
engine uses leftmost-first semantics: the match starts at the earliest
possible position, and the greedy counted repetition tries 5 units first,
then 4, 3, 2.  The optional `/(\w{1,2})` suffix can always match empty, so
it never influences whether a position matches nor the extent of group 1.
-/

/-- Match one repetition unit `(?:[0-9a-zA-Z]{2})[-:]`, returning its three
characters and the remaining input. -/
def takePairSep : List Char → Option (Char × Char × Char × List Char)
  | a :: b :: c :: rest =>
    if isAlnum a && isAlnum b && isSep c then some (a, b, c, rest) else none
  | _ => none

/-- Match `(?:(?:[0-9a-zA-Z]{2})[-:]){k}(?:[0-9a-zA-Z]{2})` at the head of
the input, returning the matched token (capture group 1). -/
def matchToken (s : List Char) : Nat → Option (List Char)
  | 0 =>
    match s with
    | a :: b :: _ => if isAlnum a && isAlnum b then some [a, b] else none
    | _ => none
  | k + 1 =>
    match takePairSep s with
    | some (a, b, c, rest) => (matchToken rest k).map (fun t => a :: b :: c :: t)
    | none => none

/-- Group 1 of the regexp matched at the head of the input: the greedy
`{2,5}` repetition tries the largest count first. -/
def matchAt (s : List Char) : Option (List Char) :=
  (matchToken s 5) <|> (matchToken s 4) <|> (matchToken s 3) <|> (matchToken s 2)

/-- `matches := re.FindAllStringSubmatch(arr[0], -1); s := matches[0][1]`:
the leftmost match's address token, if any position matches. -/
def findFirstMacToken : List Char → Option (List Char)
  | [] => none
  | c :: rest =>
    match matchAt (c :: rest) with
    | some t => some t
    | none => findFirstMacToken rest

/-!
`time.Parse("Mon, 2 Jan 2006 15:04:05 -0700", t0)`, specialised to this
fixed layout.  Per Go's parser: the short weekday and month names are
matched ASCII-case-insensitively (`match` in time/format.go), and the
weekday's value is ignored; the day and the hour (`2` and `15` use
`getnum` with `fixed = false`) accept one or two digits; minute and
second are exactly two digits; hour/minute/second are range-checked; the
zone is a sign followed by four digits; the whole value must be consumed.
(Go versions differ on day-of-month range checking; no claim depends on
it, and this model performs none.)
-/

/-- A parsed timestamp.  Only structural equality matters for the claims. -/
structure DateTime where
  year : Nat
  month : Nat
  day : Nat
  hour : Nat
  minute : Nat
  second : Nat
  zoneNeg : Bool
  zoneHH : Nat
  zoneMM : Nat
deriving DecidableEq

/-- Go's `shortDayNames`. -/
def shortDayNames : List (List Char) :=
  [['S','u','n'], ['M','o','n'], ['T','u','e'], ['W','e','d'],
   ['T','h','u'], ['F','r','i'], ['S','a','t']]

/-- Go's `shortMonthNames`. -/
def shortMonthNames : List (List Char) :=
  [['J','a','n'], ['F','e','b'], ['M','a','r'], ['A','p','r'],
   ['M','a','y'], ['J','u','n'], ['J','u','l'], ['A','u','g'],
   ['S','e','p'], ['O','c','t'], ['N','o','v'], ['D','e','c']]

/-- ASCII lower-casing, as in `match` of time/format.go (`c | 0x20` for
letters). -/
def lowerA (c : Char) : Char :=
  if 'A' ≤ c ∧ c ≤ 'Z' then Char.ofNat (c.toNat + 32) else c

/-- Case-insensitive name comparison (`match` in time/format.go). -/
def eqFold (a b : List Char) : Bool :=
  a.map lowerA == b.map lowerA

/-- Decimal digit value. -/
def digitVal (c : Char) : Option Nat :=
  if '0' ≤ c ∧ c ≤ '9' then some (c.toNat - '0'.toNat) else none

/-- Consume one expected literal character. -/
def expectChar (c : Char) : List Char → Option (List Char)
  | x :: r => if x = c then some r else none
  | [] => none

/-- Take exactly three characters. -/
def take3 : List Char → Option (List Char × List Char)
  | a :: b :: c :: r => some ([a, b, c], r)
  | _ => none

/-- Exactly two decimal digits (`getnum` with `fixed = true`). -/
def take2Digits : List Char → Option (Nat × List Char)
  | a :: b :: r =>
    match digitVal a, digitVal b with
    | some x, some y => some (10 * x + y, r)
    | _, _ => none
  | _ => none

/-- Exactly four decimal digits (the `2006` year). -/
def take4Digits (s : List Char) : Option (Nat × List Char) := do
  let (hi, r) ← take2Digits s
  let (lo, r2) ← take2Digits r
  pure (100 * hi + lo, r2)

/-- One or two decimal digits (`getnum` with `fixed = false`, used for the
`2` day and the `15` hour). -/
def takeNum12 : List Char → Option (Nat × List Char)
  | a :: b :: r =>
    match digitVal a with
    | none => none
    | some x =>
      match digitVal b with
      | some y => some (10 * x + y, r)
      | none => some (x, b :: r)
  | [a] => (digitVal a).map (fun x => (x, ([] : List Char)))
  | [] => none

/-- A `+` or `-` zone sign; `true` means negative. -/
def takeSign : List Char → Option (Bool × List Char)
  | c :: r =>
    if c = '-' then some (true, r)
    else if c = '+' then some (false, r)
    else none
  | [] => none

/-- Month number (1-based) from the short month name, matched
case-insensitively. -/
def monthNum (m : List Char) : Option Nat :=
  (shortMonthNames.findIdx? (fun n => eqFold n m)).map (· + 1)

/-- The `Mon, 2 Jan 2006` part of the layout: returns (day, month, year)
and the rest of the input. -/
def parseDatePart (s : List Char) : Option (Nat × Nat × Nat × List Char) := do
  let (wd, r0) ← take3 s
  if shortDayNames.any (fun d => eqFold d wd) then
    let r1 ← expectChar ',' r0
    let r2 ← expectChar ' ' r1
    let (day, r3) ← takeNum12 r2
    let r4 ← expectChar ' ' r3
    let (mon, r5) ← take3 r4
    let month ← monthNum mon
    let r6 ← expectChar ' ' r5
    let (year, r7) ← take4Digits r6
    pure (day, month, year, r7)
  else none

/-- The `15:04:05` part of the layout, with Go's range checks: returns
(hour, minute, second) and the rest of the input. -/
def parseClockPart (s : List Char) : Option (Nat × Nat × Nat × List Char) := do
  let (hour, r0) ← takeNum12 s
  let r1 ← expectChar ':' r0
  let (minute, r2) ← take2Digits r1
  let r3 ← expectChar ':' r2
  let (second, r4) ← take2Digits r3
  if hour < 24 ∧ minute < 60 ∧ second < 60 then pure (hour, minute, second, r4)
  else none

/-- The `-0700` part of the layout: sign and four digits, nothing after. -/
def parseZonePart (s : List Char) : Option (Bool × Nat × Nat) := do
  let (neg, r0) ← takeSign s
  let (zh, r1) ← take2Digits r0
  let (zm, r2) ← take2Digits r1
  if r2.isEmpty then pure (neg, zh, zm) else none

/-- The layout-specialised `time.Parse` described above. -/
def timeParse (s : List Char) : Option DateTime := do
  let (day, month, year, r0) ← parseDatePart s
  let r1 ← expectChar ' ' r0
  let (hour, minute, second, r2) ← parseClockPart r1
  let r3 ← expectChar ' ' r2
  let (neg, zh, zm) ← parseZonePart r3
  pure ⟨year, month, day, hour, minute, second, neg, zh, zm⟩

/-!
The in-memory database (`type ouiDB map[[3]byte]Entry`) and the scanner
`func scanOUI(in io.Reader, db ouiDB) (*time.Time, error)`.

The input stream is modelled as the list of lines produced by
`bufio.Scanner`.  `scanOUI`'s outer loop and its inner address-collecting
loop both consume lines from the same scanner, so the whole function is one
structural recursion over the remaining lines together with a mode: either
scanning at the top level, or collecting address lines for a pending record
(the pending record's key, manufacturer, and address lines collected so
far).  When the inner loop ends (a line shorter than 2 characters, or end
of input) the pending record is finalized and stored.
-/

/-- `map[[3]byte]Entry` as a function. -/
abbrev ouiDB : Type := HardwareAddr → Option Entry

/-- The empty map (`make(map[[3]byte]Entry)`). -/
def dbEmpty : ouiDB := fun _ => none

/-- Map assignment `db[*bt] = e` / `func (db ouiDB) set`. -/
def set (db : ouiDB) (hw : HardwareAddr) (e : Entry) : ouiDB :=
  fun k => if k = hw then some e else db k

/-- The two control states of `scanOUI`'s loops. -/
inductive ScanMode where
  | outer : ScanMode
  | collecting : HardwareAddr → List Char → List (List Char) → ScanMode

/-- What `scanOUI` produces: the populated map, the generation timestamp
found (if any), and the `ParseMac` error that aborted the scan (if any). -/
structure ScanResult where
  db : ouiDB
  generated : Option DateTime
  err : Option ErrInvalidMac

/-- The loop body of `scanOUI`, one line at a time. -/
def scanStep : List (List Char) → ScanMode → ouiDB → Option DateTime → ScanResult
  | [], .outer, db, gen => ⟨db, gen, none⟩
  | [], .collecting bt manu acc, db, gen =>
    ⟨set db bt (mkEntry bt manu acc), gen, none⟩
  | line :: rest, .collecting bt manu acc, db, gen =>
    if line.length < 2 then
      scanStep rest .outer (set db bt (mkEntry bt manu acc)) gen
    else if line.head? = some '\t' then
      scanStep rest (.collecting bt manu (acc ++ [trimAddr line])) db gen
    else
      scanStep rest (.collecting bt manu acc) db gen
  | line :: rest, .outer, db, gen =>
    if line.length = 0 ∨ line.head? = some '#' then
      scanStep rest .outer db gen
    else
      let arr := splitOn '\t' line
      if arr.isEmpty then scanStep rest .outer db gen
      else
        let t0 := trimSpace arr.headI
        if (str ("Generated: ")).isPrefixOf t0 then
          match timeParse (t0.drop 11) with
          | some t => scanStep rest .outer db (some t)
          | none => scanStep rest .outer db gen
        else
          match findFirstMacToken arr.headI with
          | none => scanStep rest .outer db gen
          | some tok =>
            match ParseMac tok with
            | .error e => ⟨db, gen, some e⟩
            | .ok bt => scanStep rest (.collecting bt (arr.getLastD []) []) db gen

/-- `scanOUI`, starting at the top of the outer loop. -/
def scanOUI (lines : List (List Char)) (db : ouiDB) (gen : Option DateTime) : ScanResult :=
  scanStep lines .outer db gen

/-!
The store types.  `staticDB` and `updateableDB` hold the same data (the
map and the `dbTime`); the mutex of the updateable variant only matters
for interleaved executions, which the claims treated here do not quantify
over, so both variants share one state type.  A Go zero `time.Time` (no
`Generated:` header seen) is `none`.
-/

/-- The state shared by `staticDB` and `updateableDB`: the map and the
generation time. -/
structure DBState where
  db : ouiDB
  dbTime : Option DateTime

/-- `generatedAt(t *time.Time)`: a nil pointer leaves the time unchanged. -/
def generatedAt (st : DBState) (t : Option DateTime) : DBState :=
  match t with
  | none => st
  | some _ => { st with dbTime := t }

/-- `func (o *updateableDB) updateDb(db ouiDB, t *time.Time)`. -/
def updateDb (st : DBState) (newDb : ouiDB) (t : Option DateTime) : DBState :=
  generatedAt { st with db := newDb } t

/-- The lookup failure sentinel `ErrNotFound`. -/
inductive LookupError where
  | notFound : LookupError
deriving DecidableEq

/-- `LookUp` of both `staticDB` and `updateableDB`: map access, and
`ErrNotFound` when the key is absent. -/
def LookUp (db : ouiDB) (hw : HardwareAddr) : Except LookupError Entry :=
  match db hw with
  | none => .error .notFound
  | some e => .ok e

/-- The errors `Query` can return: a `ParseMac` failure or `ErrNotFound`.
Distinct constructors model distinct Go error values. -/
inductive QueryError where
  | invalidMac : ErrInvalidMac → QueryError
  | notFound : QueryError
deriving DecidableEq

/-- `Query` of both store variants: `ParseMac` then `LookUp`. -/
def Query (db : ouiDB) (mac : List Char) : Except QueryError Entry :=
  match ParseMac mac with
  | .error e => .error (.invalidMac e)
  | .ok hw =>
    match LookUp db hw with
    | .error .notFound => .error .notFound
    | .ok e => .ok e

/-- `func OpenStatic(in io.Reader) (StaticDB, error)`: scan into a fresh
map and return the database together with the scan error. -/
def OpenStatic (lines : List (List Char)) : DBState × Option ErrInvalidMac :=
  let r := scanOUI lines dbEmpty none
  (generatedAt ⟨r.db, none⟩ r.generated, r.err)

/-- `func Open(in io.Reader) (DynamicDB, error)`: identical data flow to
`OpenStatic`, returning the updateable variant. -/
def Open (lines : List (List Char)) : DBState × Option ErrInvalidMac :=
  let r := scanOUI lines dbEmpty none
  (generatedAt ⟨r.db, none⟩ r.generated, r.err)

/-- `func Update(db DynamicDB, r io.Reader) error`: scan into a fresh
detached map; on error return it without touching the store; on success
swap the map in via `updateDb`. -/
def Update (st : DBState) (lines : List (List Char)) : DBState × Option ErrInvalidMac :=
  let r := scanOUI lines dbEmpty none
  match r.err with
  | some e => (st, some e)
  | none => (updateDb st r.db r.generated, none)

/-!
A pointer-level model of `LookUp` for the aliasing claim.  In Go,
`e, ok := o.ouiDB[hw]` copies the map's value into the local `e`, and
`return &e` makes that local escape to a freshly allocated struct cell, so
the returned `*Entry` never points into the map's own storage.  The copy
is *shallow*, however: `Entry.Address` is a `[]string`, and the struct
copy duplicates only the slice header, whose backing array stays shared
with the stored entry — `e.Address[i] = x` through the returned pointer
changes what later lookups for the same key observe.  To state both
sides, the memory is explicit: `Mem` holds the `Entry` struct cells
(`entries`, with the `Address` field replaced by a slice reference
`addressRef`) and the slice backing arrays (`strs`); `lookUpRefShallow`
performs the struct copy and the fresh allocation exactly as the Go lines
do, copying `addressRef` as a header, and `readEntry` is the value an
observer of a cell sees once the slice is dereferenced. -/

/-- An `Entry` struct as laid out in memory: like `Entry`, but the
`Address` slice is a reference (`addressRef`) into the backing-array
store.  Strings are immutable in Go, so they stay inline values. -/
structure EntryRef where
  manufacturer : List Char := []
  addressRef : Nat := 0
  pfx : HardwareAddr := ⟨0, 0, 0⟩
  country : List Char := []
  localAdmin : Bool := false
  multicast : Bool := false
deriving DecidableEq, Inhabited

/-- The memory: `Entry` struct cells and the `[]string` backing arrays,
each addressed by index. -/
structure Mem where
  entries : List EntryRef
  strs : List (List (List Char))

/-- Read an `Entry` struct cell. -/
def entryGet (m : Mem) (q : Nat) : EntryRef := m.entries.getD q default

/-- Read a slice backing array. -/
def strGet (m : Mem) (a : Nat) : List (List Char) := m.strs.getD a default

/-- Overwrite a whole `Entry` struct cell: any field assignment through a
`*Entry` (including replacing the `Address` slice header) is an instance
of this. -/
def setEntryCell (m : Mem) (q : Nat) (r : EntryRef) : Mem :=
  ⟨m.entries.set q r, m.strs⟩

/-- `e.Address[i] = v`: write one element of a slice's backing array. -/
def setAddrElem (m : Mem) (a i : Nat) (v : List Char) : Mem :=
  ⟨m.entries, m.strs.set a ((strGet m a).set i v)⟩

/-- Allocate a fresh `Entry` struct cell holding `r`; returns the new
memory and the fresh cell's index. -/
def allocEntry (m : Mem) (r : EntryRef) : Mem × Nat :=
  (⟨m.entries ++ [r], m.strs⟩, m.entries.length)

/-- The value an observer of the `Entry` cell at `q` sees, with the
`Address` slice dereferenced. -/
def readEntry (m : Mem) (q : Nat) : Entry :=
  let r := entryGet m q
  { manufacturer := r.manufacturer
    address := strGet m r.addressRef
    pfx := r.pfx
    country := r.country
    localAdmin := r.localAdmin
    multicast := r.multicast }

/-- A database whose entries are struct cells in memory. -/
abbrev PtrDB : Type := HardwareAddr → Option Nat

/-- `LookUp` at the pointer level: `e, ok := o.ouiDB[hw]` copies the
struct — including the `Address` slice *header*, not its backing array —
and `return &e, nil` lets the copy escape to a fresh cell whose index is
returned; absent keys return `ErrNotFound`. -/
def lookUpRefShallow (db : PtrDB) (m : Mem) (hw : HardwareAddr) :
    Mem × Except LookupError Nat :=
  match db hw with
  | none => (m, .error .notFound)
  | some p =>
    let e := entryGet m p
    let (m2, q) := allocEntry m e
    (m2, .ok q)

/-- A one-record memory for the C10 counterexample and witness: the map
cell 0 holds a record whose `Address` backing array is `strs` cell 0. -/
def sampleMem : Mem :=
  ⟨[{ manufacturer := str ("Acme"), addressRef := 0, pfx := ⟨0, 0, 1⟩,
      country := str ("OldAddr") }],
   [[str ("OldAddr")]]⟩

/-- The map for `sampleMem`: one key, stored at struct cell 0. -/
def sampleDB : PtrDB :=
  fun k => if k = ⟨0, 0, 1⟩ then some 0 else none

/-- The address-line collection of the amended claim C2, written from its
words: tab-prefixed lines of length at least 2 are collected (trimmed);
a line of length below 2 ends collection and is consumed; a line of length
at least 2 that does not start with a tab is consumed and skipped without
ending collection.  Returns the collected lines and the lines at which the
outer loop resumes. -/
def collectSpec : List (List Char) → List (List Char) × List (List Char)
  | [] => ([], [])
  | l :: rest =>
    if l.length < 2 then ([], rest)
    else if l.head? = some '\t' then
      let (as, r) := collectSpec rest
      (trimAddr l :: as, r)
    else collectSpec rest

/-- A well-formed token of the amended claim C6, written from its words:
a first 2-character group followed by `units.length` further groups, each
introduced by a separator; `joinTok p units` is the token's text.  With
the side conditions of `scan_token_pattern` (alphanumeric pairs,
separators from `[-:]`, 2 to 5 units, i.e. 3 to 6 groups) this enumerates
exactly the strings the amended claim says the pattern accepts. -/
def joinTok (p : Char × Char) : List (Char × Char × Char) → List Char
  | [] => [p.1, p.2]
  | u :: us => p.1 :: p.2 :: u.1 :: joinTok u.2 us

/-!  Helper lemmas.  -/

theorem splitOn_ne_nil (sep : Char) (l : List Char) : splitOn sep l ≠ [] := by
  cases l with
  | nil => simp [splitOn]
  | cons c rest =>
    simp only [splitOn]
    split <;> simp

theorem splitOn_no_sep (sep : Char) (xs : List Char) (h : ∀ c ∈ xs, c ≠ sep) :
    splitOn sep xs = [xs] := by
  induction xs with
  | nil => rfl
  | cons c rest ih =>
    have hc : c ≠ sep := h c (by simp)
    have hr : splitOn sep rest = [rest] := ih (fun d hd => h d (by simp [hd]))
    simp [splitOn, hc, hr]

theorem splitOn_append (sep : Char) (xs ys : List Char) (h : ∀ c ∈ xs, c ≠ sep) :
    splitOn sep (xs ++ sep :: ys) = xs :: splitOn sep ys := by
  induction xs with
  | nil => simp [splitOn]
  | cons c rest ih =>
    have hc : c ≠ sep := h c (by simp)
    have hr := ih (fun d hd => h d (by simp [hd]))
    simp [splitOn, hc, hr]

theorem generatedAt_db (st : DBState) (t : Option DateTime) :
    (generatedAt st t).db = st.db := by
  cases t <;> rfl

/-!  Claim theorems.  -/

/-- Claim C5: for every database and every `HardwareAddr` key absent from
the mapping, `LookUp` returns the `ErrNotFound` sentinel and no record;
`Query` on such a key (after a successful parse) also returns the
not-found sentinel, while a `ParseMac` failure surfaces as the distinct
malformed-address error, so the two are distinguishable. -/
theorem lookUp_absent_notFound (db : ouiDB) (hw : HardwareAddr)
    (h : db hw = none) :
    LookUp db hw = .error .notFound
    ∧ (∀ mac, ParseMac mac = .ok hw → Query db mac = .error .notFound)
    ∧ (∀ (db2 : ouiDB) (mac : List Char) (e : ErrInvalidMac),
        ParseMac mac = .error e → Query db2 mac = .error (.invalidMac e)) := by
  refine ⟨by simp [LookUp, h], fun mac hm => ?_, fun db2 mac e he => ?_⟩
  · simp [Query, hm, LookUp, h]
  · simp [Query, he]

/-- Witness for C5 at a concrete database and key. -/
theorem lookUp_absent_notFound_witness :
    LookUp dbEmpty ⟨0, 1, 2⟩ = .error .notFound ∧
      Query dbEmpty (str ("00-01-02")) = .error .notFound :=
  have h := lookUp_absent_notFound dbEmpty ⟨0, 1, 2⟩ rfl
  ⟨h.1, h.2.1 (str ("00-01-02")) (by rfl)⟩

/-- Claim C1: if scanning the update stream fails, `Update` returns that
error and leaves the store's state (mapping and generation timestamp)
exactly as it was, so every subsequent `LookUp` answers as before. -/
theorem update_parse_failure_atomic (st : DBState) (lines : List (List Char))
    (e : ErrInvalidMac) (h : (scanOUI lines dbEmpty none).err = some e) :
    Update st lines = (st, some e)
    ∧ (∀ k, LookUp (Update st lines).1.db k = LookUp st.db k)
    ∧ (Update st lines).1.dbTime = st.dbTime := by
  have h1 : Update st lines = (st, some e) := by
    simp only [Update, h]
  exact ⟨h1, fun k => by rw [h1], by rw [h1]⟩

/-- Witness for C1: a store holding one record, updated from a stream whose
only line carries a token `ParseMac` rejects; the state is untouched. -/
theorem update_parse_failure_atomic_witness :
    Update ⟨set dbEmpty ⟨0, 96, 148⟩ default, none⟩ [str ("AB-CD-ZZ\tFoo")]
      = (⟨set dbEmpty ⟨0, 96, 148⟩ default, none⟩,
         some ⟨.elemNotHex 3 (str ("ZZ")), str ("AB-CD-ZZ")⟩)
    ∧ LookUp (Update ⟨set dbEmpty ⟨0, 96, 148⟩ default, none⟩
          [str ("AB-CD-ZZ\tFoo")]).1.db ⟨0, 96, 148⟩
        = LookUp (set dbEmpty ⟨0, 96, 148⟩ default) ⟨0, 96, 148⟩ :=
  have h := update_parse_failure_atomic ⟨set dbEmpty ⟨0, 96, 148⟩ default, none⟩
    [str ("AB-CD-ZZ\tFoo")] ⟨.elemNotHex 3 (str ("ZZ")), str ("AB-CD-ZZ")⟩ (by decide)
  ⟨h.1, h.2.1 ⟨0, 96, 148⟩⟩

/-- Claim C9: `OpenStatic` and `Open` hand back the database together with
the scan error; every record the scanner stored (in particular everything
parsed before a failing line, since the scanner aborts there returning the
map built so far) is present in the returned database and reachable
through `LookUp`. -/
theorem open_returns_scanned_db (lines : List (List Char)) (k : HardwareAddr)
    (e : Entry) (h : (scanOUI lines dbEmpty none).db k = some e) :
    (OpenStatic lines).1.db k = some e
    ∧ (Open lines).1.db k = some e
    ∧ LookUp (OpenStatic lines).1.db k = .ok e
    ∧ (OpenStatic lines).2 = (scanOUI lines dbEmpty none).err
    ∧ (Open lines).2 = (scanOUI lines dbEmpty none).err := by
  have h1 : (OpenStatic lines).1.db k = some e := by
    simp only [OpenStatic, generatedAt_db]
    exact h
  have h2 : (Open lines).1.db k = some e := by
    simp only [Open, generatedAt_db]
    exact h
  exact ⟨h1, h2, by simp [LookUp, h1], rfl, rfl⟩

/-- Witness for C9: a stream with one good record and then a line whose
token fails to parse; the good record is served despite the error. -/
theorem open_returns_scanned_db_witness :
    (OpenStatic [str ("AA-BB-CC\tGood"), str (""), str ("ZZ-YY-XX\tBad")]).1.db
        ⟨0xAA, 0xBB, 0xCC⟩
      = some { manufacturer := str ("Good"), pfx := ⟨0xAA, 0xBB, 0xCC⟩,
               localAdmin := true }
    ∧ (OpenStatic [str ("AA-BB-CC\tGood"), str (""), str ("ZZ-YY-XX\tBad")]).2
      = (scanOUI [str ("AA-BB-CC\tGood"), str (""), str ("ZZ-YY-XX\tBad")]
          dbEmpty none).err :=
  have h := open_returns_scanned_db
    [str ("AA-BB-CC\tGood"), str (""), str ("ZZ-YY-XX\tBad")] ⟨0xAA, 0xBB, 0xCC⟩
    { manufacturer := str ("Good"), pfx := ⟨0xAA, 0xBB, 0xCC⟩, localAdmin := true }
    (by decide)
  ⟨h.1, h.2.2.2.1⟩

/-- Claim C10 (amended): `LookUp` returns a pointer to a fresh *shallow*
copy of the stored entry, never a pointer into the database's own
storage: the returned struct cell is distinct from the map's cell, so
assigning to the returned entry's fields (any struct-level mutation,
including replacing the whole `Address` slice header) does not change
what later lookups for the same key observe.  The copy shares the
`Address` slice's backing array with the stored entry, however, so
writing an element through it (`e.Address[i] = v`) does change the
address lines every later lookup for that key returns — and every lookup
observes exactly the stored entry's current view. -/
theorem lookUpRef_shallow_copy (db : PtrDB) (m : Mem) (hw : HardwareAddr)
    (p : Nat) (hp : db hw = some p) (hlt : p < m.entries.length) :
    lookUpRefShallow db m hw
        = (⟨m.entries ++ [entryGet m p], m.strs⟩, .ok m.entries.length)
    ∧ m.entries.length ≠ p
    ∧ readEntry ⟨m.entries ++ [entryGet m p], m.strs⟩ m.entries.length
        = readEntry m p
    ∧ (∀ r : EntryRef,
        readEntry (setEntryCell ⟨m.entries ++ [entryGet m p], m.strs⟩
            m.entries.length r) p
          = readEntry m p)
    ∧ (entryGet ⟨m.entries ++ [entryGet m p], m.strs⟩ m.entries.length).addressRef
        = (entryGet m p).addressRef
    ∧ (∀ (i : Nat) (v : List Char),
        readEntry (setAddrElem ⟨m.entries ++ [entryGet m p], m.strs⟩
            (entryGet m p).addressRef i v) p
          = { readEntry m p with address := (readEntry m p).address.set i v })
    ∧ (∀ m' : Mem, p < m'.entries.length →
        lookUpRefShallow db m' hw
            = (⟨m'.entries ++ [entryGet m' p], m'.strs⟩, .ok m'.entries.length)
          ∧ readEntry ⟨m'.entries ++ [entryGet m' p], m'.strs⟩ m'.entries.length
              = readEntry m' p) := by
  have econcat : ∀ (l : List EntryRef) (s : List (List (List Char)))
      (r : EntryRef), entryGet ⟨l ++ [r], s⟩ l.length = r := by
    intro l s r
    simp [entryGet, List.getD_eq_getElem?_getD, List.getElem?_concat_length]
  have eleft : ∀ (l : List EntryRef) (s : List (List (List Char)))
      (r : EntryRef) (q : Nat), q < l.length →
      entryGet ⟨l ++ [r], s⟩ q = entryGet ⟨l, s⟩ q := by
    intro l s r q hq
    simp [entryGet, List.getD_eq_getElem?_getD, List.getElem?_append_left hq]
  have gen : ∀ m' : Mem, p < m'.entries.length →
      lookUpRefShallow db m' hw
          = (⟨m'.entries ++ [entryGet m' p], m'.strs⟩, .ok m'.entries.length)
        ∧ readEntry ⟨m'.entries ++ [entryGet m' p], m'.strs⟩ m'.entries.length
            = readEntry m' p := by
    intro m' _
    refine ⟨by simp [lookUpRefShallow, hp, allocEntry], ?_⟩
    simp only [readEntry, econcat m'.entries m'.strs (entryGet m' p)]
    rw [show entryGet ⟨m'.entries, m'.strs⟩ p = entryGet m' p from rfl,
      show strGet ⟨m'.entries ++ [entryGet m' p], m'.strs⟩
          = strGet ⟨m'.entries, m'.strs⟩ from rfl]
  have hnp : m.entries.length ≠ p := fun hEq => absurd hlt (by omega)
  refine ⟨(gen m hlt).1, hnp, (gen m hlt).2, ?_, ?_, ?_, gen⟩
  · intro r
    have hset : entryGet (setEntryCell ⟨m.entries ++ [entryGet m p], m.strs⟩
        m.entries.length r) p = entryGet m p := by
      simp only [setEntryCell, entryGet, List.getD_eq_getElem?_getD]
      rw [List.getElem?_set_ne hnp, List.getElem?_append_left hlt]
    simp only [readEntry, hset]
    rw [show strGet (setEntryCell ⟨m.entries ++ [entryGet m p], m.strs⟩
        m.entries.length r) = strGet ⟨m.entries, m.strs⟩ from rfl]
  · rw [econcat]
  · intro i v
    have hc2 : entryGet (setAddrElem ⟨m.entries ++ [entryGet m p], m.strs⟩
        (entryGet m p).addressRef i v) p = entryGet m p := by
      simp only [setAddrElem, entryGet, List.getD_eq_getElem?_getD]
      rw [List.getElem?_append_left hlt]
    have hs2 : strGet (setAddrElem ⟨m.entries ++ [entryGet m p], m.strs⟩
          (entryGet m p).addressRef i v) (entryGet m p).addressRef
        = (strGet m (entryGet m p).addressRef).set i v := by
      simp only [setAddrElem, strGet, List.getD_eq_getElem?_getD]
      by_cases hb : (entryGet m p).addressRef < m.strs.length
      · rw [List.getElem?_set_eq_of_lt _ hb]
        rfl
      · have hle : m.strs.length ≤ (entryGet m p).addressRef := by omega
        rw [List.set_eq_of_length_le hle, List.getElem?_eq_none hle]
        rfl
    simp only [readEntry]
    rw [hc2, hs2]

/-- Witness for C10's amended theorem at the one-record memory: the
lookup allocates the shallow copy, and the element write through the
shared backing array changes the stored entry's observed address. -/
theorem lookUpRef_shallow_copy_witness :
    lookUpRefShallow sampleDB sampleMem ⟨0, 0, 1⟩
      = (⟨sampleMem.entries ++ [entryGet sampleMem 0], sampleMem.strs⟩, .ok 1)
    ∧ readEntry (setAddrElem ⟨sampleMem.entries ++ [entryGet sampleMem 0],
          sampleMem.strs⟩ (entryGet sampleMem 0).addressRef 0 (str ("mutated"))) 0
        = { readEntry sampleMem 0 with
            address := (readEntry sampleMem 0).address.set 0 (str ("mutated")) } :=
  have h := lookUpRef_shallow_copy sampleDB sampleMem ⟨0, 0, 1⟩ 0 rfl (by decide)
  ⟨h.1, h.2.2.2.2.2.1 0 (str ("mutated"))⟩

/-- Counterexample to claim C10 as stated: the map-value copy is shallow.
After `e, _ := db.LookUp(hw)` the caller runs `e.Address[0] = "mutated"`
(an element write through the returned entry's `Address` slice, whose
backing array is shared with the stored entry); a later lookup for the
same key then returns `Address = ["mutated"]` instead of the original
`["OldAddr"]` — mutating the entry obtained from a lookup *does* change
the result of later lookups. -/
theorem lookUpRef_shallow_copy_cex :
    (readEntry (lookUpRefShallow sampleDB sampleMem ⟨0, 0, 1⟩).1 1).address
      = [str ("OldAddr")]
    ∧ (lookUpRefShallow sampleDB sampleMem ⟨0, 0, 1⟩).2 = .ok 1
    ∧ (lookUpRefShallow sampleDB
        (setAddrElem (lookUpRefShallow sampleDB sampleMem ⟨0, 0, 1⟩).1
          (entryGet (lookUpRefShallow sampleDB sampleMem ⟨0, 0, 1⟩).1 1).addressRef
          0 (str ("mutated"))) ⟨0, 0, 1⟩).2 = .ok 2
    ∧ (readEntry (lookUpRefShallow sampleDB
        (setAddrElem (lookUpRefShallow sampleDB sampleMem ⟨0, 0, 1⟩).1
          (entryGet (lookUpRefShallow sampleDB sampleMem ⟨0, 0, 1⟩).1 1).addressRef
          0 (str ("mutated"))) ⟨0, 0, 1⟩).1 2).address
      = [str ("mutated")] := by
  exact ⟨rfl, rfl, rfl, rfl⟩

/-- The flag masks pick out bits 17 and 16 of
`int(bt[0])<<16 | int(bt[1])<<8 | int(bt[2])`, which for byte-sized
`b1`, `b2` are exactly bits 1 and 0 of `b0`. -/
theorem or3_mask_bits (b0 b1 b2 : Nat) (h1 : b1 < 256) (h2 : b2 < 256) :
    ((b0 <<< 16 ||| b1 <<< 8 ||| b2) &&& localMask ≠ 0 ↔ b0 &&& 2 ≠ 0)
    ∧ ((b0 <<< 16 ||| b1 <<< 8 ||| b2) &&& multicastMask ≠ 0 ↔ b0 &&& 1 ≠ 0) := by
  have hb1 : ∀ j, 8 ≤ j → b1.testBit j = false := by
    intro j hj
    apply Nat.testBit_eq_false_of_lt
    calc b1 < 256 := h1
      _ = 2 ^ 8 := by norm_num
      _ ≤ 2 ^ j := Nat.pow_le_pow_right (by norm_num) hj
  have hb2 : ∀ j, 8 ≤ j → b2.testBit j = false := by
    intro j hj
    apply Nat.testBit_eq_false_of_lt
    calc b2 < 256 := h2
      _ = 2 ^ 8 := by norm_num
      _ ≤ 2 ^ j := Nat.pow_le_pow_right (by norm_num) hj
  have and_ne : ∀ x k : Nat, (x &&& 2 ^ k ≠ 0 ↔ x.testBit k = true) := by
    intro x k
    rw [Nat.and_two_pow]
    cases hx : x.testBit k <;> simp [Nat.pos_iff_ne_zero.mp (Nat.two_pow_pos k)]
  have t17 : (b0 <<< 16 ||| b1 <<< 8 ||| b2).testBit 17 = b0.testBit 1 := by
    simp only [Nat.testBit_or, Nat.testBit_shiftLeft]
    rw [hb1 9 (by omega), hb2 17 (by omega)]
    norm_num
  have t16 : (b0 <<< 16 ||| b1 <<< 8 ||| b2).testBit 16 = b0.testBit 0 := by
    simp only [Nat.testBit_or, Nat.testBit_shiftLeft]
    rw [hb1 8 (by omega), hb2 16 (by omega)]
    norm_num
  constructor
  · have hl := and_ne (b0 <<< 16 ||| b1 <<< 8 ||| b2) 17
    have hr := and_ne b0 1
    norm_num [localMask] at hl hr ⊢
    rw [hl, hr]
    simp [hb1 9 (by omega), hb2 17 (by omega)]
  · have hl := and_ne (b0 <<< 16 ||| b1 <<< 8 ||| b2) 16
    have hr := and_ne b0 0
    norm_num [multicastMask] at hl hr ⊢
    rw [hl]
    simp only [hb1 8 (by omega), hb2 16 (by omega)]
    simp

/-- Claim C8: a record built by the registry parser has
`localAdmin` set exactly when bit `0x02` of the key's first byte is set and
`multicast` exactly when bit `0x01` is set, agreeing with the
`HardwareAddr.Local`/`Multicast` methods; the three concrete prefixes of
the claim behave as stated. -/
theorem record_flag_bits (bt : HardwareAddr) (manu : List Char)
    (addr : List (List Char)) (hb1 : bt.b1 < 256) (hb2 : bt.b2 < 256) :
    ((mkEntry bt manu addr).localAdmin = bt.Local
      ∧ (mkEntry bt manu addr).multicast = bt.Multicast)
    ∧ (bt.Local = true ↔ bt.b0 &&& 2 ≠ 0)
    ∧ (bt.Multicast = true ↔ bt.b0 &&& 1 ≠ 0)
    ∧ ((mkEntry ⟨2, 0, 0⟩ [] []).localAdmin = true
        ∧ (mkEntry ⟨2, 0, 0⟩ [] []).multicast = false)
    ∧ ((mkEntry ⟨1, 0, 0⟩ [] []).multicast = true
        ∧ (mkEntry ⟨1, 0, 0⟩ [] []).localAdmin = false)
    ∧ ((mkEntry ⟨0, 0, 0⟩ [] []).localAdmin = false
        ∧ (mkEntry ⟨0, 0, 0⟩ [] []).multicast = false)
    ∧ (HardwareAddr.Local ⟨2, 0, 0⟩ = true ∧ HardwareAddr.Multicast ⟨2, 0, 0⟩ = false
        ∧ HardwareAddr.Multicast ⟨1, 0, 0⟩ = true ∧ HardwareAddr.Local ⟨1, 0, 0⟩ = false
        ∧ HardwareAddr.Local ⟨0, 0, 0⟩ = false
        ∧ HardwareAddr.Multicast ⟨0, 0, 0⟩ = false) := by
  have hm := or3_mask_bits bt.b0 bt.b1 bt.b2 hb1 hb2
  refine ⟨⟨?_, ?_⟩, ?_, ?_, by decide, by decide, by decide, by decide⟩
  · simp only [mkEntry, HardwareAddr.Local]
    rw [decide_eq_decide]
    rw [hm.1]
    omega
  · simp only [mkEntry, HardwareAddr.Multicast]
    rw [decide_eq_decide]
    rw [hm.2]
    omega
  · simp only [HardwareAddr.Local, decide_eq_true_eq]
    omega
  · simp only [HardwareAddr.Multicast, decide_eq_true_eq]
    omega

/-- Witness for C8 at the claim's concrete prefixes. -/
theorem record_flag_bits_witness :
    (mkEntry ⟨2, 0, 0⟩ [] []).localAdmin = HardwareAddr.Local ⟨2, 0, 0⟩
    ∧ (mkEntry ⟨1, 0, 0⟩ [] []).multicast = HardwareAddr.Multicast ⟨1, 0, 0⟩ :=
  have h2 := record_flag_bits ⟨2, 0, 0⟩ [] [] (by decide) (by decide)
  have h1 := record_flag_bits ⟨1, 0, 0⟩ [] [] (by decide) (by decide)
  ⟨h2.1.1, h1.1.2⟩

/-- Claim C7: a line whose first tab-delimited field (trimmed) begins with
`Generated: ` updates the scanner's generation timestamp exactly when the
remainder parses in the fixed layout; an unparsable remainder leaves the
previous value and scanning continues (no abort), and because the new
value threads into the recursive call, a later parsable header overwrites
an earlier one (last one wins). -/
theorem generated_header_step (line : List Char) (rest : List (List Char))
    (db : ouiDB) (gen : Option DateTime)
    (h0 : line ≠ [])
    (h1 : line.head? ≠ some '#')
    (h2 : (str ("Generated: ")).isPrefixOf
        (trimSpace (splitOn '\t' line).headI) = true) :
    scanOUI (line :: rest) db gen
      = scanOUI rest db
          (match timeParse ((trimSpace (splitOn '\t' line).headI).drop 11) with
           | some t => some t
           | none => gen) := by
  have hlen : ¬ line.length = 0 := by simpa using h0
  have harr : (splitOn '\t' line).isEmpty = false := by
    cases hs : splitOn '\t' line with
    | nil => exact absurd hs (splitOn_ne_nil '\t' line)
    | cons a l => rfl
  simp only [scanOUI, scanStep, hlen, h1, harr, h2, false_or, if_false, if_true,
    Bool.false_eq_true, ite_false]
  split <;> rfl

/-- Witness for C7: a parsable header, then an unparsable one (ignored in
place), then a second parsable header which wins. -/
theorem generated_header_step_witness :
    scanOUI [str ("Generated: Thu, 1 Jan 2015 10:20:30 +0000"),
             str ("Generated: garbage"),
             str ("Generated: Fri, 2 Oct 2015 11:22:33 -0700")] dbEmpty none
      = scanOUI [] dbEmpty (some ⟨2015, 10, 2, 11, 22, 33, true, 7, 0⟩) := by
  have s1 := generated_header_step
    (str ("Generated: Thu, 1 Jan 2015 10:20:30 +0000"))
    [str ("Generated: garbage"),
     str ("Generated: Fri, 2 Oct 2015 11:22:33 -0700")] dbEmpty none
    (by decide) (by decide) (by decide)
  have s2 := generated_header_step (str ("Generated: garbage"))
    [str ("Generated: Fri, 2 Oct 2015 11:22:33 -0700")] dbEmpty
    (some ⟨2015, 1, 1, 10, 20, 30, false, 0, 0⟩)
    (by decide) (by decide) (by decide)
  have s3 := generated_header_step
    (str ("Generated: Fri, 2 Oct 2015 11:22:33 -0700")) [] dbEmpty
    (some ⟨2015, 1, 1, 10, 20, 30, false, 0, 0⟩)
    (by decide) (by decide) (by decide)
  exact (s1.trans rfl).trans ((s2.trans rfl).trans (s3.trans rfl))

/-- Claim C2 (amended): in the address-collecting loop, a line of length
below 2 ends collection and is consumed; a line of length at least 2 that
does not start with a tab is consumed and skipped without ending
collection (so a record-header line immediately after address lines, with
no blank line between, is swallowed rather than re-parsed); tab-prefixed
lines of length at least 2 are collected trimmed, in order.  `collectSpec`
states this independently and the scanner is proved to follow it. -/
theorem scanStep_collect (rest : List (List Char)) :
    ∀ (bt : HardwareAddr) (manu : List Char) (acc : List (List Char))
      (db : ouiDB) (gen : Option DateTime),
      scanStep rest (.collecting bt manu acc) db gen
        = scanStep (collectSpec rest).2 .outer
            (set db bt (mkEntry bt manu (acc ++ (collectSpec rest).1))) gen := by
  induction rest with
  | nil => intro bt manu acc db gen; simp [scanStep, collectSpec]
  | cons l rest ih =>
    intro bt manu acc db gen
    by_cases hl : l.length < 2
    · simp [scanStep, collectSpec, hl]
    · by_cases ht : l.head? = some '\t'
      · simp only [scanStep, collectSpec, hl, ht, if_false, if_true, ite_false,
          ite_true]
        rw [ih]
        simp
      · simp only [scanStep, collectSpec, hl, ht, if_false, ite_false]
        rw [ih]

/-- Counterexample to claim C2 as stated: a record-header line placed
immediately after address lines (no blank line between) is *not* re-parsed
as a new record — it is consumed and skipped, and the tab line after it is
absorbed into the previous record's address block. -/
theorem scanStep_collect_cex :
    ((scanOUI [str ("AA-BB-CC\tManuOne"), str ("\tAddr1"),
               str ("DD-EE-FF\tManuTwo"), str ("\tAddr2")] dbEmpty none).db
        ⟨0xDD, 0xEE, 0xFF⟩ = none)
    ∧ ((scanOUI [str ("AA-BB-CC\tManuOne"), str ("\tAddr1"),
                 str ("DD-EE-FF\tManuTwo"), str ("\tAddr2")] dbEmpty none).db
        ⟨0xAA, 0xBB, 0xCC⟩
      = some { manufacturer := str ("ManuOne"),
               address := [str ("Addr1"), str ("Addr2")],
               pfx := ⟨0xAA, 0xBB, 0xCC⟩,
               country := str ("Addr2"),
               localAdmin := true, multicast := false })
    ∧ (scanOUI [str ("AA-BB-CC\tManuOne"), str ("\tAddr1"),
                str ("DD-EE-FF\tManuTwo"), str ("\tAddr2")] dbEmpty none).err
      = none := by
  refine ⟨by decide, by decide, by decide⟩

theorem hexVal_char_props {c : Char} {x : Nat} (h : hexVal c = some x) :
    c ≠ ':' ∧ c ≠ '-' ∧ isScanSpace c = false := by
  refine ⟨?_, ?_, ?_⟩
  · rintro rfl
    rw [show hexVal ':' = none from by decide] at h
    exact Option.noConfusion h
  · rintro rfl
    rw [show hexVal '-' = none from by decide] at h
    exact Option.noConfusion h
  · by_contra hs
    rw [Bool.not_eq_false] at hs
    have hc : c = ' ' ∨ c = '\t' ∨ c = Char.ofNat 11 ∨ c = Char.ofNat 12
        ∨ c = '\r' ∨ c = Char.ofNat 0x85 ∨ c = Char.ofNat 0xA0 := by
      simpa [isScanSpace, or_assoc] using hs
    have hnone : hexVal c = none := by
      rcases hc with rfl | rfl | rfl | rfl | rfl | rfl | rfl <;> decide
    rw [hnone] at h
    exact Option.noConfusion h

theorem sscanfHexByte_pair {a b : Char} {x y : Nat}
    (ha : hexVal a = some x) (hb : hexVal b = some y) :
    sscanfHexByte [a, b] = some (16 * x + y) := by
  have hsa : isScanSpace a = false := (hexVal_char_props ha).2.2
  simp [sscanfHexByte, hsa, ha, hb]

theorem parseField_pair {mac : List Char} {a b : Char} {x y : Nat} (i : Nat)
    (ha : hexVal a = some x) (hb : hexVal b = some y) :
    parseField mac [a, b] i = .ok (16 * x + y) := by
  simp [parseField, sscanfHexByte_pair ha hb]

theorem errBind {α β γ : Type} (e : α) (f : β → Except α γ) :
    (Except.error e >>= f) = Except.error e := rfl

theorem okBind {α β γ : Type} (b : β) (f : β → Except α γ) :
    ((Except.ok b : Except α β) >>= f) = f b := rfl

theorem mapErr {α β γ : Type} (g : β → γ) (e : α) :
    (g <$> (Except.error e : Except α β)) = Except.error e := rfl

theorem parseMac_eval (mac f0 f1 f2 : List Char) (rest : List (List Char))
    (x y z : Nat)
    (hlen : ¬ mac.length < 6)
    (hf : fieldsOf mac = f0 :: f1 :: f2 :: rest)
    (h0 : parseField mac f0 0 = .ok x)
    (h1 : parseField mac f1 1 = .ok y)
    (h2 : parseField mac f2 2 = .ok z) :
    ParseMac mac = .ok ⟨x, y, z⟩ := by
  rw [ParseMac, if_neg hlen]
  simp only [hf]
  rw [if_neg (by simp)]
  simp only [List.getD_eq_getElem?_getD, List.getElem?_cons_zero,
    List.getElem?_cons_succ, Option.getD_some]
  rw [h0, okBind, h1, okBind, h2]
  rfl

theorem parseField_ok_inv {mac p : List Char} {i b : Nat}
    (h : parseField mac p i = .ok b) :
    p.length = 2 ∧ (sscanfHexByte p).isSome = true := by
  rw [parseField] at h
  split at h
  · exact absurd h (by simp)
  · rename_i hl
    refine ⟨not_ne_iff.mp hl, ?_⟩
    split at h
    · exact absurd h (by simp)
    · rename_i v hs
      simp [hs]

/-- Claim C3 (amended): `ParseMac` checks that each of the first 3 fields
is exactly 2 characters, and rejects a field as non-hex only when it
contains no leading hexadecimal digit (after optional scanner whitespace);
both rejections carry the failing element's 1-based index.  A field whose
first character is a hex digit but whose second is not is *accepted* with
the value of the parsed prefix (Go's `Sscanf` ignores trailing input), so
success only guarantees each field has length 2 and a parsable hex
prefix. -/
theorem parseMac_field_checks :
    (∀ (mac : List Char) (hw : HardwareAddr), ParseMac mac = .ok hw →
      ∀ i, i < 3 → ((fieldsOf mac).getD i []).length = 2
        ∧ (sscanfHexByte ((fieldsOf mac).getD i [])).isSome = true)
    ∧ (∀ (mac p : List Char) (i : Nat), p.length ≠ 2 →
        parseField mac p i = .error ⟨.elemNotTwoChars (i + 1) p, mac⟩)
    ∧ (∀ (mac p : List Char) (i : Nat), p.length = 2 → sscanfHexByte p = none →
        parseField mac p i = .error ⟨.elemNotHex (i + 1) p, mac⟩) := by
  refine ⟨?_, ?_, ?_⟩
  · intro mac hw h i hi
    rw [ParseMac] at h
    split at h
    · exact absurd h (by simp)
    · split at h
      · exact absurd h (by simp)
      · cases h0 : parseField mac ((fieldsOf mac).getD 0 []) 0 with
        | error e => simp only [h0, errBind] at h; exact Except.noConfusion h
        | ok b0 =>
          simp only [h0, okBind] at h
          cases h1 : parseField mac ((fieldsOf mac).getD 1 []) 1 with
          | error e => simp only [h1, errBind] at h; exact Except.noConfusion h
          | ok b1 =>
            simp only [h1, okBind] at h
            cases h2 : parseField mac ((fieldsOf mac).getD 2 []) 2 with
            | error e => simp only [h2, errBind, mapErr] at h; exact Except.noConfusion h
            | ok b2 =>
              interval_cases i
              · exact parseField_ok_inv h0
              · exact parseField_ok_inv h1
              · exact parseField_ok_inv h2
  · intro mac p i hp
    simp [parseField, hp]
  · intro mac p i hp hs
    simp [parseField, hp, hs]

/-- Witness for C3's amended theorem: a successful parse has 2-character
hex-prefixed fields, and a field with no hex digit is rejected naming
element 3. -/
theorem parseMac_field_checks_witness :
    (((fieldsOf (str ("0G-11-22"))).getD 0 []).length = 2
      ∧ (sscanfHexByte ((fieldsOf (str ("0G-11-22"))).getD 0 [])).isSome = true)
    ∧ parseField (str ("AB-CD-ZZ")) (str ("ZZ")) 2
        = .error ⟨.elemNotHex 3 (str ("ZZ")), str ("AB-CD-ZZ")⟩ :=
  ⟨parseMac_field_checks.1 (str ("0G-11-22")) ⟨0, 17, 34⟩ (by rfl) 0 (by decide),
   parseMac_field_checks.2.2 (str ("AB-CD-ZZ")) (str ("ZZ")) 2 (by rfl) (by rfl)⟩

/-- Counterexample to claim C3 as stated: `"0G"` is not a valid 2-character
hex pair (`G` is not a hex digit), yet `ParseMac` accepts
`"0G-11-22"` and returns a `HardwareAddr`, taking the field's value from
its 1-digit hex prefix. -/
theorem parseMac_field_checks_cex :
    hexVal 'G' = none
    ∧ ParseMac (str ("0G-11-22")) = .ok ⟨0, 17, 34⟩ := by
  exact ⟨by decide, by rfl⟩

/-- Claim C4: any prefix of three 2-hex-digit groups parses to the same
3-byte `HardwareAddr` whether the groups are joined by `-`, by `:`, or by
nothing, with bytes in input order (high digit first, no bit reversal);
inputs shorter than 6 characters and inputs splitting into fewer than 3
fields are rejected; fields beyond the first 3 (any suffix after a third
separator) are ignored. -/
theorem parseMac_separator_styles :
    (∀ (a1 a2 b1 b2 c1 c2 : Char) (x1 x2 x3 x4 x5 x6 : Nat),
      hexVal a1 = some x1 → hexVal a2 = some x2 → hexVal b1 = some x3 →
      hexVal b2 = some x4 → hexVal c1 = some x5 → hexVal c2 = some x6 →
      ParseMac [a1, a2, '-', b1, b2, '-', c1, c2]
          = .ok ⟨16 * x1 + x2, 16 * x3 + x4, 16 * x5 + x6⟩
      ∧ ParseMac [a1, a2, ':', b1, b2, ':', c1, c2]
          = .ok ⟨16 * x1 + x2, 16 * x3 + x4, 16 * x5 + x6⟩
      ∧ ParseMac [a1, a2, b1, b2, c1, c2]
          = .ok ⟨16 * x1 + x2, 16 * x3 + x4, 16 * x5 + x6⟩
      ∧ (∀ t : List Char,
          ParseMac ([a1, a2, '-', b1, b2, '-', c1, c2] ++ '-' :: t)
            = .ok ⟨16 * x1 + x2, 16 * x3 + x4, 16 * x5 + x6⟩))
    ∧ (∀ mac : List Char, mac.length < 6 →
        ParseMac mac = .error ⟨.tooShort, mac⟩)
    ∧ (∀ mac : List Char, ¬ mac.length < 6 → (fieldsOf mac).length < 3 →
        ParseMac mac = .error ⟨.tooFewElements, mac⟩) := by
  refine ⟨?_, fun mac h => by simp [ParseMac, h],
    fun mac h6 h3 => by simp [ParseMac, h6, h3]⟩
  intro a1 a2 b1 b2 c1 c2 x1 x2 x3 x4 x5 x6 ha1 ha2 hb1 hb2 hc1 hc2
  have mem : ∀ (u v : Char) (xu xv : Nat), hexVal u = some xu → hexVal v = some xv →
      (∀ c ∈ [u, v], c ≠ '-') ∧ (∀ c ∈ [u, v], c ≠ ':') := by
    intro u v xu xv hu hv
    refine ⟨fun c hc => ?_, fun c hc => ?_⟩
    · rcases (show c = u ∨ c = v by simpa using hc) with rfl | rfl
      · exact (hexVal_char_props hu).2.1
      · exact (hexVal_char_props hv).2.1
    · rcases (show c = u ∨ c = v by simpa using hc) with rfl | rfl
      · exact (hexVal_char_props hu).1
      · exact (hexVal_char_props hv).1
  refine ⟨?_, ?_, ?_, ?_⟩
  · have fd : fieldsOf [a1, a2, '-', b1, b2, '-', c1, c2]
        = [[a1, a2], [b1, b2], [c1, c2]] := by
      simp only [fieldsOf, List.getD_eq_getElem?_getD, List.getElem?_cons_zero,
        List.getElem?_cons_succ, Option.getD_some]
      rw [if_pos (Or.inr trivial)]
      rw [show [a1, a2, '-', b1, b2, '-', c1, c2]
          = [a1, a2] ++ '-' :: ([b1, b2] ++ '-' :: [c1, c2]) from rfl,
        splitOn_append '-' [a1, a2] _ (mem a1 a2 _ _ ha1 ha2).1,
        splitOn_append '-' [b1, b2] _ (mem b1 b2 _ _ hb1 hb2).1,
        splitOn_no_sep '-' [c1, c2] (mem c1 c2 _ _ hc1 hc2).1]
    exact parseMac_eval _ _ _ _ _ _ _ _ (by norm_num) fd
      (parseField_pair 0 ha1 ha2) (parseField_pair 1 hb1 hb2)
      (parseField_pair 2 hc1 hc2)
  · have fc : fieldsOf [a1, a2, ':', b1, b2, ':', c1, c2]
        = [[a1, a2], [b1, b2], [c1, c2]] := by
      simp only [fieldsOf, List.getD_eq_getElem?_getD, List.getElem?_cons_zero,
        List.getElem?_cons_succ, Option.getD_some]
      rw [if_pos (Or.inl trivial)]
      rw [show [a1, a2, ':', b1, b2, ':', c1, c2]
          = [a1, a2] ++ ':' :: ([b1, b2] ++ ':' :: [c1, c2]) from rfl,
        splitOn_append ':' [a1, a2] _ (mem a1 a2 _ _ ha1 ha2).2,
        splitOn_append ':' [b1, b2] _ (mem b1 b2 _ _ hb1 hb2).2,
        splitOn_no_sep ':' [c1, c2] (mem c1 c2 _ _ hc1 hc2).2]
    exact parseMac_eval _ _ _ _ _ _ _ _ (by norm_num) fc
      (parseField_pair 0 ha1 ha2) (parseField_pair 1 hb1 hb2)
      (parseField_pair 2 hc1 hc2)
  · have fn : fieldsOf [a1, a2, b1, b2, c1, c2]
        = [[a1, a2], [b1, b2], [c1, c2]] := by
      simp only [fieldsOf, List.getD_eq_getElem?_getD, List.getElem?_cons_zero,
        List.getElem?_cons_succ, Option.getD_some]
      rw [if_neg (by
        rintro (h | h)
        · exact (hexVal_char_props hb1).1 h
        · exact (hexVal_char_props hb1).2.1 h)]
      rfl
    exact parseMac_eval _ _ _ _ _ _ _ _ (by norm_num) fn
      (parseField_pair 0 ha1 ha2) (parseField_pair 1 hb1 hb2)
      (parseField_pair 2 hc1 hc2)
  · intro t
    have ft : fieldsOf ([a1, a2, '-', b1, b2, '-', c1, c2] ++ '-' :: t)
        = [a1, a2] :: [b1, b2] :: [c1, c2] :: splitOn '-' t := by
      simp only [fieldsOf, List.cons_append, List.nil_append,
        List.getD_eq_getElem?_getD, List.getElem?_cons_zero,
        List.getElem?_cons_succ, Option.getD_some]
      rw [if_pos (Or.inr trivial)]
      rw [show a1 :: a2 :: '-' :: b1 :: b2 :: '-' :: c1 :: c2 :: '-' :: t
          = [a1, a2] ++ '-' :: ([b1, b2] ++ '-' :: ([c1, c2] ++ '-' :: t)) from rfl,
        splitOn_append '-' [a1, a2] _ (mem a1 a2 _ _ ha1 ha2).1,
        splitOn_append '-' [b1, b2] _ (mem b1 b2 _ _ hb1 hb2).1,
        splitOn_append '-' [c1, c2] _ (mem c1 c2 _ _ hc1 hc2).1]
    exact parseMac_eval _ _ _ _ _ _ _ _
      (by simp [List.length_append]) ft
      (parseField_pair 0 ha1 ha2) (parseField_pair 1 hb1 hb2)
      (parseField_pair 2 hc1 hc2)

/-- Witness for C4 at the spec's example prefix in all three styles, plus
a full MAC address whose host portion is ignored. -/
theorem parseMac_separator_styles_witness :
    ParseMac (str ("D0-DF-9A")) = .ok ⟨0xD0, 0xDF, 0x9A⟩
    ∧ ParseMac (str ("D0:DF:9A")) = .ok ⟨0xD0, 0xDF, 0x9A⟩
    ∧ ParseMac (str ("D0DF9A")) = .ok ⟨0xD0, 0xDF, 0x9A⟩
    ∧ ParseMac (str ("D0-DF-9A-D8-44-4B")) = .ok ⟨0xD0, 0xDF, 0x9A⟩ := by
  have h := parseMac_separator_styles.1 'D' '0' 'D' 'F' '9' 'A' 13 0 13 15 9 10
    (by decide) (by decide) (by decide) (by decide) (by decide) (by decide)
  exact ⟨h.1, h.2.1, h.2.2.1, h.2.2.2 (str ("D8-44-4B"))⟩

theorem takePairSep_some {x y z : Char} {w : List Char}
    {t : Char × Char × Char × List Char}
    (h : takePairSep (x :: y :: z :: w) = some t) :
    t = (x, y, z, w) ∧ isAlnum x = true ∧ isAlnum y = true ∧ isSep z = true := by
  rw [takePairSep] at h
  split at h
  · rename_i hcond
    simp only [Bool.and_eq_true] at hcond
    exact ⟨(Option.some.inj h).symm, hcond.1.1, hcond.1.2, hcond.2⟩
  · exact Option.noConfusion h

theorem matchToken_join (p : Char × Char) (units : List (Char × Char × Char))
    (tail : List Char)
    (hp1 : isAlnum p.1 = true) (hp2 : isAlnum p.2 = true)
    (hu : ∀ u ∈ units,
      isSep u.1 = true ∧ isAlnum u.2.1 = true ∧ isAlnum u.2.2 = true) :
    matchToken (joinTok p units ++ tail) units.length = some (joinTok p units) := by
  induction units generalizing p with
  | nil => simp [joinTok, matchToken, hp1, hp2]
  | cons u us ih =>
    have h1 := hu u (by simp)
    have hrec := ih u.2 h1.2.1 h1.2.2 (fun v hv => hu v (by simp [hv]))
    simp only [joinTok, List.cons_append, List.length_cons, matchToken,
      takePairSep, hp1, hp2, h1.1, Bool.and_self, Bool.and_true, Bool.true_and,
      if_true]
    rw [hrec]
    rfl

theorem matchToken_join_none (p : Char × Char) (units : List (Char × Char × Char))
    (tail : List Char) (j : Nat)
    (hlt : units.length < j)
    (htail : ∀ c, tail.head? = some c → isSep c = false) :
    matchToken (joinTok p units ++ tail) j = none := by
  induction units generalizing p j with
  | nil =>
    obtain ⟨j', rfl⟩ : ∃ j', j = j' + 1 := ⟨j - 1, by omega⟩
    cases tail with
    | nil => simp [joinTok, matchToken, takePairSep]
    | cons c r =>
      have hc := htail c rfl
      cases htp : takePairSep (joinTok p [] ++ c :: r) with
      | none => simp only [matchToken, htp]
      | some t =>
        have := (takePairSep_some (by simpa [joinTok] using htp)).2.2.2
        rw [hc] at this
        exact Bool.noConfusion this
  | cons u us ih =>
    obtain ⟨j', rfl⟩ : ∃ j', j = j' + 1 := ⟨j - 1, by omega⟩
    cases htp : takePairSep (joinTok p (u :: us) ++ tail) with
    | none => simp only [matchToken, htp]
    | some t =>
      obtain ⟨hteq, -, -, -⟩ := takePairSep_some
        (by simpa [joinTok] using htp : takePairSep
          (p.1 :: p.2 :: u.1 :: (joinTok u.2 us ++ tail)) = some t)
      simp only [matchToken, htp, hteq]
      rw [ih u.2 j' (by simpa using hlt)]
      rfl

theorem matchAt_join (p : Char × Char) (units : List (Char × Char × Char))
    (tail : List Char)
    (hp1 : isAlnum p.1 = true) (hp2 : isAlnum p.2 = true)
    (hu : ∀ u ∈ units,
      isSep u.1 = true ∧ isAlnum u.2.1 = true ∧ isAlnum u.2.2 = true)
    (h2 : 2 ≤ units.length) (h5 : units.length ≤ 5)
    (htail : ∀ c, tail.head? = some c → isSep c = false) :
    matchAt (joinTok p units ++ tail) = some (joinTok p units) := by
  have hm := matchToken_join p units tail hp1 hp2 hu
  have hn : ∀ j, units.length < j →
      matchToken (joinTok p units ++ tail) j = none :=
    fun j hj => matchToken_join_none p units tail j hj htail
  have hcase : units.length = 2 ∨ units.length = 3 ∨ units.length = 4
      ∨ units.length = 5 := by omega
  rcases hcase with h | h | h | h <;> rw [matchAt] <;> rw [h] at hm
  · rw [hn 5 (by omega), hn 4 (by omega), hn 3 (by omega), hm]
    rfl
  · rw [hn 5 (by omega), hn 4 (by omega), hm]
    rfl
  · rw [hn 5 (by omega), hm]
    rfl
  · rw [hm]
    rfl

/-- Claim C6 (amended): the scanner's pattern accepts tokens of 3 to 6
groups of exactly 2 *alphanumeric* characters (`[0-9a-zA-Z]`, not only
hex) separated by `:` or `-` (the optional `/` suffix never affects the
token); a non-comment, non-`Generated:` line whose first tab-delimited
field contains no such token is skipped; and the first match's token is
handed to `ParseMac` (whose failure aborts the scan). -/
theorem scan_token_pattern :
    (∀ (p : Char × Char) (units : List (Char × Char × Char)) (tail : List Char),
      isAlnum p.1 = true → isAlnum p.2 = true →
      (∀ u ∈ units,
        isSep u.1 = true ∧ isAlnum u.2.1 = true ∧ isAlnum u.2.2 = true) →
      2 ≤ units.length → units.length ≤ 5 →
      (∀ c, tail.head? = some c → isSep c = false) →
      findFirstMacToken (joinTok p units ++ tail) = some (joinTok p units))
    ∧ (∀ (line : List Char) (rest : List (List Char)) (db : ouiDB)
        (gen : Option DateTime),
        line ≠ [] → line.head? ≠ some '#' →
        (str ("Generated: ")).isPrefixOf
            (trimSpace (splitOn '\t' line).headI) = false →
        findFirstMacToken (splitOn '\t' line).headI = none →
        scanOUI (line :: rest) db gen = scanOUI rest db gen)
    ∧ (∀ (line : List Char) (rest : List (List Char)) (db : ouiDB)
        (gen : Option DateTime) (tok : List Char) (e : ErrInvalidMac),
        line ≠ [] → line.head? ≠ some '#' →
        (str ("Generated: ")).isPrefixOf
            (trimSpace (splitOn '\t' line).headI) = false →
        findFirstMacToken (splitOn '\t' line).headI = some tok →
        ParseMac tok = .error e →
        scanOUI (line :: rest) db gen = ⟨db, gen, some e⟩) := by
  refine ⟨?_, ?_, ?_⟩
  · intro p units tail hp1 hp2 hu h2 h5 htail
    have hm := matchAt_join p units tail hp1 hp2 hu h2 h5 htail
    obtain ⟨s', hs⟩ : ∃ s', joinTok p units ++ tail = p.1 :: s' := by
      cases units <;> exact ⟨_, rfl⟩
    rw [hs] at hm ⊢
    simp only [findFirstMacToken, hm]
  · intro line rest db gen h0 h1 hg hf
    have hlen : ¬ line.length = 0 := by simpa using h0
    have harr : (splitOn '\t' line).isEmpty = false := by
      cases hs : splitOn '\t' line with
      | nil => exact absurd hs (splitOn_ne_nil '\t' line)
      | cons a l => rfl
    simp only [scanOUI, scanStep, hlen, h1, harr, hg, hf, false_or, if_false,
      Bool.false_eq_true, ite_false]
  · intro line rest db gen tok e h0 h1 hg hf hp
    have hlen : ¬ line.length = 0 := by simpa using h0
    have harr : (splitOn '\t' line).isEmpty = false := by
      cases hs : splitOn '\t' line with
      | nil => exact absurd hs (splitOn_ne_nil '\t' line)
      | cons a l => rfl
    simp only [scanOUI, scanStep, hlen, h1, harr, hg, hf, hp, false_or,
      if_false, Bool.false_eq_true, ite_false]

/-- Witness for C6's amended theorem: a token of three non-hex
alphanumeric groups is matched whole, and a line with no token is
skipped. -/
theorem scan_token_pattern_witness :
    findFirstMacToken (str ("ZZ-YY-XX")) = some (str ("ZZ-YY-XX"))
    ∧ scanOUI [str ("NOTOKEN")] dbEmpty none = scanOUI [] dbEmpty none :=
  ⟨scan_token_pattern.1 ('Z', 'Z') [('-', 'Y', 'Y'), ('-', 'X', 'X')] []
      (by decide) (by decide) (by decide) (by decide) (by decide)
      (fun c h => Option.noConfusion h),
   scan_token_pattern.2.1 (str ("NOTOKEN")) [] dbEmpty none
      (by decide) (by decide) (by decide) (by rfl)⟩

/-- Counterexample to claim C6 as stated: the pattern is not restricted to
hexadecimal groups — the all-non-hex token `ZZ-YY-XX` is matched and
handed to `ParseMac`, aborting the scan instead of skipping the line —
and a 2-group token (`AA-BB`) is not accepted by the pattern, which
requires at least 3 groups. -/
theorem scan_token_pattern_cex :
    (scanOUI [str ("ZZ-YY-XX\tFoo")] dbEmpty none).err
      = some ⟨.elemNotHex 1 (str ("ZZ")), str ("ZZ-YY-XX")⟩
    ∧ (scanOUI [str ("AA-BB\tFoo")] dbEmpty none).err = none
    ∧ findFirstMacToken (str ("AA-BB")) = none := by
  exact ⟨by decide, by decide, by decide⟩

end Oui
